import Mathlib

/-!
Shallow embedding of the Spider Scraper crawler (src/SpiderScraper.py) and
verification of the specification claims about it.

The embedding translates, from the source:
- the URL helpers `normalize_link` and `same_origin` (with a model of the
  parts of CPython `urllib.parse` that they call: `urlsplit`, `urljoin`,
  `urlunsplit`),
- the `Spider` configuration and its filter predicates
  (`_check_keyword_filters`, `_check_domain_allowed`, `_check_link_filter`,
  `_can_fetch`, `_get_url_depth`),
- the retry loop `_fetch_with_retry` (network outcomes as an oracle,
  sleeps recorded as rational durations),
- the `Spider.crawl` loop as a step function on an explicit crawl state,
  with fuel for the outer while loop and ghost logs recording every
  enqueue, every fetch and every skip reason.

Network and HTML parsing are nondeterministic inputs: a `World` supplies,
per URL, the fetched page (title string and href attributes, which is all
`crawl` reads from the parsed document) and the robots.txt verdict.
-/

namespace SpiderScraper

/-! ### Python string primitives -/

/-- Python `str.isspace` characters that matter for `str.strip()`. -/
def pySpace (c : Char) : Bool :=
  c == ' ' || c == '\t' || c == '\n' || c == '\r' || c == '\x0b' || c == '\x0c'

/-- Python `str.strip()` on a character list. -/
def stripList (l : List Char) : List Char :=
  ((l.dropWhile pySpace).reverse.dropWhile pySpace).reverse

/-- Python `str.strip()`. -/
def pyStrip (s : String) : String := String.mk (stripList s.toList)

/-- Python `str.lower()` (ASCII inputs). -/
def pyLower (s : String) : String := String.mk (s.toList.map Char.toLower)

/-- Python `str.rstrip(c)` for a single strip character, written
recursively so that proofs can peel one character at a time. -/
def rstripList (c : Char) : List Char → List Char
  | [] => []
  | x :: xs =>
    match rstripList c xs with
    | [] => if x == c then [] else [x]
    | y :: ys => x :: y :: ys

/-- Python `str.rstrip(c)` for a single strip character. -/
def pyRstripChar (c : Char) (s : String) : String := String.mk (rstripList c s.toList)

/-- Python `str.strip(c)` for a single strip character. -/
def stripCharList (c : Char) (l : List Char) : List Char :=
  rstripList c (l.dropWhile (· == c))

/-- Python `s.split(c)` on a character list: always returns at least one
(possibly empty) group, splitting at every occurrence of `c`. -/
def splitChar (c : Char) : List Char → List (List Char)
  | [] => [[]]
  | x :: xs =>
    match splitChar c xs with
    | [] => [[]]
    | g :: gs => if x == c then [] :: g :: gs else (x :: g) :: gs

/-- Python `s.split(c)` producing strings. -/
def pySplitStr (c : Char) (s : String) : List String :=
  (splitChar c s.toList).map String.mk

/-- Python `s.split(c, 1)[0]`: everything before the first occurrence of
`c` (the whole string when `c` is absent). -/
def pySplitHead (c : Char) (s : String) : String :=
  String.mk (s.toList.takeWhile (· != c))

/-- `needle` occurs as a contiguous sublist of `hay`. -/
def subListOf (needle : List Char) : List Char → Bool
  | [] => needle.isEmpty
  | x :: xs => needle.isPrefixOf (x :: xs) || subListOf needle xs

/-- Python `needle in hay` on strings (substring test). -/
def strContains (hay needle : String) : Bool :=
  subListOf needle.toList hay.toList

/-- Python `s.endswith(pat)`. -/
def pyEndsWith (s pat : String) : Bool :=
  pat.toList.reverse.isPrefixOf s.toList.reverse

/-- Python `s.startswith(pat)`. -/
def pyStartsWith (s pat : String) : Bool :=
  pat.toList.isPrefixOf s.toList

/-- Python `sep.join(parts)`. -/
def joinWith (sep : String) : List String → String
  | [] => ""
  | [a] => a
  | a :: b :: rest => a ++ sep ++ joinWith sep (b :: rest)

/-! ### Model of `urllib.parse.urlsplit` -/

/-- The parts returned by `urllib.parse.urlsplit` (the source never reads
the `params` component, so the `urlparse`/`urlsplit` difference is moot). -/
structure UrlParts where
  scheme : String
  netloc : String
  path : String
  query : String
  fragment : String
deriving DecidableEq, Repr

/-- Split a character list at the first occurrence of `c`, if any. -/
def splitAtFirst (c : Char) : List Char → Option (List Char × List Char)
  | [] => none
  | x :: xs =>
    if x == c then some ([], xs)
    else
      match splitAtFirst c xs with
      | none => none
      | some (a, b) => some (x :: a, b)

/-- CPython `scheme_chars`: letters, digits, `+`, `-`, `.`. -/
def schemeChar (c : Char) : Bool :=
  c.isAlpha || c.isDigit || c == '+' || c == '-' || c == '.'

/-- A candidate scheme is valid when nonempty, starting with an ASCII
letter, with every following character in `scheme_chars`
(CPython `urlsplit`). -/
def validScheme : List Char → Bool
  | [] => false
  | c :: cs => c.isAlpha && cs.all schemeChar

/-- Scheme extraction of CPython `urlsplit`: the text before the first
`:` when it forms a valid scheme (lowercased), otherwise no scheme. -/
def extractScheme (l : List Char) : List Char × List Char :=
  match splitAtFirst ':' l with
  | some (pre, post) =>
    if validScheme pre then (pre.map Char.toLower, post) else ([], l)
  | none => ([], l)

/-- A character that does not terminate the netloc (`/`, `?`, `#` do). -/
def netlocChar (c : Char) : Bool :=
  !(c == '/' || c == '?' || c == '#')

/-- CPython `_splitnetloc` applied when the remainder starts with `//`. -/
def extractNetloc : List Char → List Char × List Char
  | '/' :: '/' :: r => (r.takeWhile netlocChar, r.dropWhile netlocChar)
  | l => ([], l)

/-- Split once at `c`: `(before, after)` with `after = []` when absent,
as in `url.split(c, 1)` guarded by `c in url`. -/
def splitOnce (c : Char) (l : List Char) : List Char × List Char :=
  match splitAtFirst c l with
  | some (a, b) => (a, b)
  | none => (l, [])

/-- Model of CPython `urlsplit` on a character list: scheme, then `//`
netloc, then fragment, then query. -/
def urlsplitChars (l : List Char) : UrlParts :=
  let es := extractScheme l
  let nl := extractNetloc es.2
  let fr := splitOnce '#' nl.2
  let pq := splitOnce '?' fr.1
  { scheme := String.mk es.1
    netloc := String.mk nl.1
    path := String.mk pq.1
    query := String.mk pq.2
    fragment := String.mk fr.2 }

/-- Model of `urllib.parse.urlsplit` (equivalently `urlparse` restricted
to the components the source reads). -/
def urlparse (s : String) : UrlParts := urlsplitChars s.toList

/-- `urllib.parse.urlsplit(url, scheme=default)`: the default scheme is
used when the URL carries none. -/
def urlparseDef (s : String) (default : String) : UrlParts :=
  let u := urlparse s
  if u.scheme = "" then { u with scheme := default } else u

/-! ### Model of `urllib.parse.urlunsplit` and `urljoin` -/

/-- Model of `urllib.parse.urlunsplit`. -/
def urlunsplit (u : UrlParts) : String :=
  let url1 :=
    if u.netloc ≠ "" ∨ pyStartsWith u.path "//" then
      "//" ++ u.netloc ++
        (if u.path ≠ "" ∧ ¬ pyStartsWith u.path "/" then "/" ++ u.path else u.path)
    else u.path
  let url2 := if u.scheme ≠ "" then u.scheme ++ ":" ++ url1 else url1
  let url3 := if u.query ≠ "" then url2 ++ "?" ++ u.query else url2
  if u.fragment ≠ "" then url3 ++ "#" ++ u.fragment else url3

/-- CPython `uses_relative` scheme list. -/
def usesRelative : List String :=
  ["", "ftp", "http", "gopher", "nntp", "imap", "wais", "file", "https",
   "shttp", "mms", "prospero", "rtsp", "rtspu", "sftp", "svn", "svn+ssh",
   "ws", "wss"]

/-- CPython `uses_netloc` scheme list. -/
def usesNetloc : List String :=
  ["", "ftp", "http", "gopher", "nntp", "telnet", "imap", "wais", "file",
   "mms", "https", "shttp", "snews", "prospero", "rtsp", "rtspu", "rsync",
   "svn", "svn+ssh", "sftp", "nfs", "git", "git+ssh", "ws", "wss",
   "itms-services"]

/-- `segments[1:-1] = filter(None, segments[1:-1])` from CPython
`urljoin`: drop empty segments strictly between the first and the last. -/
def filterMiddle : List String → List String
  | [] => []
  | [a] => [a]
  | a :: b :: rest =>
    a :: (((b :: rest).dropLast.filter (· ≠ "")) ++ [(b :: rest).getLastD ""])

/-- Relative-reference resolution of CPython `urljoin` after the scheme
compatibility test (`params` omitted: no input in this development uses
`;` path parameters). -/
def joinRel (b uu : UrlParts) : String :=
  if usesNetloc.contains uu.scheme ∧ uu.netloc ≠ "" then
    urlunsplit uu
  else
    let netloc := if usesNetloc.contains uu.scheme then b.netloc else uu.netloc
    if uu.path = "" then
      let query := if uu.query = "" then b.query else uu.query
      urlunsplit ⟨uu.scheme, netloc, b.path, query, uu.fragment⟩
    else
      let bp := pySplitStr '/' b.path
      let baseParts := if bp.getLastD "" ≠ "" then bp.dropLast else bp
      let segments :=
        if pyStartsWith uu.path "/" then pySplitStr '/' uu.path
        else filterMiddle (baseParts ++ pySplitStr '/' uu.path)
      let resolved := segments.foldl
        (fun acc seg =>
          if seg = ".." then acc.dropLast
          else if seg = "." then acc
          else acc ++ [seg]) []
      let resolved :=
        if segments.getLastD "" = "." ∨ segments.getLastD "" = ".." then
          resolved ++ [""]
        else resolved
      let joined := joinWith "/" resolved
      urlunsplit ⟨uu.scheme, netloc, if joined = "" then "/" else joined,
                  uu.query, uu.fragment⟩

/-- Model of `urllib.parse.urljoin`. -/
def urljoin (base url : String) : String :=
  if base = "" then url
  else if url = "" then base
  else
    let b := urlparse base
    let uu := urlparseDef url b.scheme
    if uu.scheme ≠ b.scheme ∨ ¬ usesRelative.contains uu.scheme then url
    else joinRel b uu

/-! ### Module-level helpers of the source -/

/-- `ALLOWED_SCHEMES = {"http", "https"}`. -/
def ALLOWED_SCHEMES : List String := ["http", "https"]

/-- The `Row` dataclass `(title, category, url)`. -/
structure Row where
  title : String
  category : String
  url : String
deriving DecidableEq, Repr

/-- `same_origin(a, b)`: the parsed `(scheme, netloc)` pairs coincide.
The source wraps the comparison in `try/except`; the modelled `urlparse`
never raises, so the `except` branch is dead. -/
def same_origin (a b : String) : Bool :=
  let pa := urlparse a
  let pb := urlparse b
  pa.scheme == pb.scheme && pa.netloc == pb.netloc

/-- `normalize_link(base_url, href)`. Mirrors the source faithfully; in
particular the `if href.startswith("#") or ...` statement of the source
is a no-op (both of its branches are `pass`), so it does not appear. -/
def normalize_link (base_url href : String) : Option String :=
  if href = "" then none
  else
    let href := pyStrip href
    let abs_url := urljoin base_url href
    let parsed := urlparse abs_url
    if ¬ ALLOWED_SCHEMES.contains parsed.scheme then none
    else some (pySplitHead '#' abs_url)

/-! ### Spider configuration and filter predicates -/

/-- The configuration fields of `Spider` that the crawl loop reads.
Fields the claims never touch (user agent, headers, cookies, proxies,
delays) are omitted: they only affect wall-clock timing and outbound
request headers, which the embedding does not observe. -/
structure Spider where
  root : String
  maxPages : Nat
  maxDepth : Int
  allowedDomains : List String
  linkFilters : List String
  includeKeywords : List String
  excludeKeywords : List String
  respectRobots : Bool

/-- `Spider.__init__`: `self.root = root_url.rstrip("/")`; list arguments
default to `[]` via `x or []` (callers pass the already-defaulted list
here). -/
def Spider.init (root_url : String) (max_pages : Nat) (max_depth : Int)
    (allowed_domains link_filters include_keywords exclude_keywords : List String)
    (respect_robots : Bool) : Spider :=
  { root := pyRstripChar '/' root_url
    maxPages := max_pages
    maxDepth := max_depth
    allowedDomains := allowed_domains
    linkFilters := link_filters
    includeKeywords := include_keywords
    excludeKeywords := exclude_keywords
    respectRobots := respect_robots }

/-- `Spider._check_keyword_filters`: excludes first (any case-insensitive
substring hit rejects), then includes (if configured, at least one must
hit), else pass. -/
def checkKeywordFilters (sp : Spider) (url : String) : Bool :=
  let urlLower := pyLower url
  if sp.excludeKeywords.any (fun kw => strContains urlLower (pyLower kw)) then
    false
  else if sp.includeKeywords ≠ [] then
    sp.includeKeywords.any (fun kw => strContains urlLower (pyLower kw))
  else true

/-- `Spider._check_domain_allowed`. -/
def checkDomainAllowed (sp : Spider) (url : String) : Bool :=
  if sp.allowedDomains = [] then true
  else
    let domain := pyLower (urlparse url).netloc
    sp.allowedDomains.any (fun allowed =>
      let allowed := pyStrip (pyLower allowed)
      if pyStartsWith allowed "." then
        pyEndsWith domain allowed || domain == String.mk (allowed.toList.drop 1)
      else
        domain == allowed || pyEndsWith domain ("." ++ allowed))

/-- `Spider._check_link_filter`. -/
def checkLinkFilter (sp : Spider) (url : String) : Bool :=
  if sp.linkFilters = [] then true
  else
    let path := pyLower (urlparse url).path
    sp.linkFilters.any (fun filter_ext =>
      let filter_ext := pyStrip (pyLower filter_ext)
      let filter_ext :=
        if pyStartsWith filter_ext "." then filter_ext else "." ++ filter_ext
      pyEndsWith path filter_ext || pyEndsWith path (filter_ext ++ "/"))

/-- The per-URL robots verdict and fetch outcome are network inputs; a
`World` fixes them for a run.  `fetch url` is the outcome of
`_fetch_with_retry` at the crawl level: `none` when every attempt failed,
otherwise the page content that `crawl` reads from the response —
`titleRaw` models `soup.title.string` (`none` when the page has no
usable title tag or its string is `None`; note the empty string is a
possible value distinct from `none`), and `hrefs` lists the `href`
attributes of `a[href]` elements in document order. -/
structure Page where
  titleRaw : Option String
  hrefs : List String
deriving DecidableEq, Repr

structure World where
  fetch : String → Option Page
  robotsAllow : String → Bool

/-- `Spider._can_fetch`: `True` when robots compliance is off; otherwise
the verdict of the (lazily cached) robots parser, with parser absence or
fetch failure folded into `robotsAllow` returning `true`. -/
def canFetch (sp : Spider) (w : World) (url : String) : Bool :=
  if ¬ sp.respectRobots then true else w.robotsAllow url

/-- Lookup in the `url_depths` dict (modelled as an association list
whose most recent insertion is at the head). -/
def depthFind (url : String) : List (String × Int) → Option Int
  | [] => none
  | (k, v) :: rest => if url = k then some v else depthFind url rest

/-- `Spider._get_url_depth`: memo hit, root, cross-domain, or the
path-segment-count difference (memoized in that last case only). -/
def getUrlDepth (sp : Spider) (depths : List (String × Int)) (url : String) :
    Int × List (String × Int) :=
  match depthFind url depths with
  | some d => (d, depths)
  | none =>
    if url = sp.root then (0, depths)
    else
      let root_parsed := urlparse sp.root
      let url_parsed := urlparse url
      if root_parsed.netloc ≠ url_parsed.netloc then (-1, depths)
      else
        let root_path := splitChar '/' (rstripList '/' root_parsed.path.toList)
        let url_path := splitChar '/' (rstripList '/' url_parsed.path.toList)
        let depth := max 0 ((url_path.length : Int) - (root_path.length : Int))
        (depth, (url, depth) :: depths)

/-! ### `Spider._fetch_with_retry` -/

/-- The retry loop of `_fetch_with_retry`, from attempt number `attempt`
with `remaining` further attempts allowed after it.  `attemptOk i` is the
network oracle: whether attempt `i` (0-based) gets a 2xx response.
Returns (outcome, number of HTTP attempts made, backoff sleeps in
seconds, in order). -/
def fetchAux (backoff : ℚ) (attemptOk : Nat → Bool) :
    Nat → Nat → Option Unit × Nat × List ℚ
  | attempt, remaining =>
    if attemptOk attempt then (some (), 1, [])
    else
      match remaining with
      | 0 => (none, 1, [])
      | r + 1 =>
        let wait_time := backoff * 2 ^ attempt
        let rec_result := fetchAux backoff attemptOk (attempt + 1) r
        (rec_result.1, rec_result.2.1 + 1, wait_time :: rec_result.2.2)

/-- `Spider._fetch_with_retry`: `for attempt in range(max_retries + 1)`,
sleeping `retry_backoff * 2 ** attempt` after each failure that still has
attempts remaining. -/
def fetchWithRetry (max_retries : Nat) (retry_backoff : ℚ)
    (attemptOk : Nat → Bool) : Option Unit × Nat × List ℚ :=
  fetchAux retry_backoff attemptOk 0 max_retries

/-! ### The crawl loop -/

/-- The reasons logged when a dequeued frontier entry is skipped. -/
inductive SkipReason where
  | depthExceeded
  | robotsBlocked
  | domainNotAllowed
  | linkFilterMismatch
  | keywordMismatch
  | fetchFailed
deriving DecidableEq, Repr

/-- Mutable state of `Spider.crawl`: the frontier queue `q`, the sets and
lists of the `Spider` object, plus ghost logs (`enqLog`: every URL ever
put on the queue, in order, the seed included; `fetchLog`: every URL
passed to `_fetch_with_retry`; `skipLog`: every skip reason logged). -/
structure CrawlState where
  queue : List (String × Int)
  seen : List String
  rows : List Row
  urlDepths : List (String × Int)
  cancelled : Bool
  enqLog : List String
  fetchLog : List String
  skipLog : List SkipReason
deriving Repr

/-- The gating checks applied to a dequeued `(url, depth)` entry, in
source order (`crawl`, lines 332–360): depth, robots, domain, link
filter, keyword filter.  Returns the first failure, if any. -/
def gateCheck (sp : Spider) (w : World) (url : String) (depth : Int) :
    Option SkipReason :=
  if 0 ≤ sp.maxDepth ∧ sp.maxDepth < depth then some .depthExceeded
  else if ¬ canFetch sp w url then some .robotsBlocked
  else if ¬ checkDomainAllowed sp url then some .domainNotAllowed
  else if ¬ checkLinkFilter sp url then some .linkFilterMismatch
  else if ¬ checkKeywordFilters sp url then some .keywordMismatch
  else none

/-- `(soup.title.string.strip() if soup.title and soup.title.string else url)`:
Python truthiness of the title string makes the empty string fall back to
the URL, but a whitespace-only string is truthy and is merely stripped. -/
def computeTitle (titleRaw : Option String) (url : String) : String :=
  match titleRaw with
  | some s => if s ≠ "" then pyStrip s else url
  | none => url

/-- `path = urlparse(url).path.strip("/"); category = path.split("/")[0] if path else ""`. -/
def computeCategory (url : String) : String :=
  let path := stripCharList '/' (urlparse url).path.toList
  if path ≠ [] then String.mk ((splitChar '/' path).headD []) else ""

/-- The body of the `for a in soup.select("a[href]")` loop of `crawl`:
normalize, same-origin, seen, depth and keyword gates, then mark seen and
enqueue. -/
def linkStep (sp : Spider) (pageUrl : String) (st : CrawlState)
    (href : String) : CrawlState :=
  match normalize_link pageUrl href with
  | none => st
  | some abs_url =>
    if ¬ same_origin sp.root abs_url then st
    else if abs_url ∈ st.seen then st
    else
      let dres := getUrlDepth sp st.urlDepths abs_url
      let st1 := { st with urlDepths := dres.2 }
      if 0 ≤ sp.maxDepth ∧ sp.maxDepth < dres.1 then st1
      else if ¬ checkKeywordFilters sp abs_url then st1
      else { st1 with
              seen := abs_url :: st1.seen
              queue := st1.queue ++ [(abs_url, dres.1)]
              enqLog := st1.enqLog ++ [abs_url] }

/-- `# Queue more links` section of `crawl`. -/
def processLinks (sp : Spider) (pageUrl : String) (hrefs : List String)
    (st : CrawlState) : CrawlState :=
  hrefs.foldl (linkStep sp pageUrl) st

/-- One iteration of the `while` loop of `crawl` (dequeue, gate, fetch,
record, enqueue links).  Proxy rotation and the inter-request delay only
affect timing and are not observable in the state. -/
def crawlStep (sp : Spider) (w : World) (st : CrawlState) : CrawlState :=
  match st.queue with
  | [] => st
  | (url, depth) :: restQ =>
    let st := { st with queue := restQ }
    match gateCheck sp w url depth with
    | some r => { st with skipLog := st.skipLog ++ [r] }
    | none =>
      let st := { st with fetchLog := st.fetchLog ++ [url] }
      match w.fetch url with
      | none => { st with skipLog := st.skipLog ++ [.fetchFailed] }
      | some page =>
        let title := computeTitle page.titleRaw url
        let category := computeCategory url
        let st := { st with rows := st.rows ++ [⟨title, category, url⟩] }
        processLinks sp url page.hrefs st

/-- `while not q.empty() and len(self.rows) < self.max_pages and not self.cancelled`. -/
def crawlCond (sp : Spider) (st : CrawlState) : Bool :=
  !st.queue.isEmpty && decide (st.rows.length < sp.maxPages) && !st.cancelled

/-- Whether the run reached its terminal state (`done`: the loop guard
became false) or the modelling fuel ran out first. -/
inductive CrawlOutcome where
  | done
  | fuelExhausted
deriving DecidableEq, Repr

/-- The `while` loop of `crawl`, with fuel bounding the number of
iterations the model may take. -/
def crawlLoop (sp : Spider) (w : World) : Nat → CrawlState → CrawlState × CrawlOutcome
  | 0, st => if crawlCond sp st then (st, .fuelExhausted) else (st, .done)
  | fuel + 1, st =>
    if crawlCond sp st then crawlLoop sp w fuel (crawlStep sp w st)
    else (st, .done)

/-- The seeding of `crawl`: `q.put((self.root, 0)); self.seen.add(self.root);
self.url_depths[self.root] = 0`, on the fresh state of `__init__`. -/
def initState (sp : Spider) : CrawlState :=
  { queue := [(sp.root, 0)]
    seen := [sp.root]
    rows := []
    urlDepths := [(sp.root, 0)]
    cancelled := false
    enqLog := [sp.root]
    fetchLog := []
    skipLog := [] }

/-- `Spider.crawl`, run to completion or until the fuel is spent. -/
def crawl (sp : Spider) (w : World) (fuel : Nat) : CrawlState × CrawlOutcome :=
  crawlLoop sp w fuel (initState sp)

/-! ### Preservation infrastructure -/

theorem processLinks_preserve (sp : Spider) (pageUrl : String)
    {P : CrawlState → Prop}
    (hP : ∀ st href, P st → P (linkStep sp pageUrl st href)) :
    ∀ (hrefs : List String) (st : CrawlState),
      P st → P (processLinks sp pageUrl hrefs st) := by
  intro hrefs
  induction hrefs with
  | nil => intro st h; exact h
  | cons a t ih => intro st h; exact ih (linkStep sp pageUrl st a) (hP st a h)

theorem crawlLoop_preserve (sp : Spider) (w : World) {P : CrawlState → Prop}
    (hstep : ∀ st, crawlCond sp st = true → P st → P (crawlStep sp w st)) :
    ∀ (fuel : Nat) (st : CrawlState), P st → P (crawlLoop sp w fuel st).1 := by
  intro fuel
  induction fuel with
  | zero =>
    intro st h
    unfold crawlLoop
    split <;> exact h
  | succ n ih =>
    intro st h
    unfold crawlLoop
    split
    · next hc => exact ih _ (hstep st hc h)
    · exact h

theorem linkStep_rows (sp : Spider) (pageUrl : String) (st : CrawlState)
    (href : String) : (linkStep sp pageUrl st href).rows = st.rows := by
  unfold linkStep
  dsimp only
  repeat' split
  all_goals rfl

theorem processLinks_rows (sp : Spider) (pageUrl : String) :
    ∀ (hrefs : List String) (st : CrawlState),
      (processLinks sp pageUrl hrefs st).rows = st.rows := by
  intro hrefs
  induction hrefs with
  | nil => intro st; rfl
  | cons a t ih =>
    intro st
    calc (processLinks sp pageUrl (a :: t) st).rows
        = (processLinks sp pageUrl t (linkStep sp pageUrl st a)).rows := rfl
      _ = (linkStep sp pageUrl st a).rows := ih _
      _ = st.rows := linkStep_rows sp pageUrl st a

theorem crawlStep_rows_le (sp : Spider) (w : World) (st : CrawlState) :
    (crawlStep sp w st).rows.length ≤ st.rows.length + 1 := by
  unfold crawlStep
  split
  · omega
  · split
    · simp
    · split
      · simp
      · rw [processLinks_rows]
        simp

/-! ### The visited-set/enqueue invariant (claim C1) -/

/-- The crawl invariant behind "each URL is enqueued at most once": the
enqueue log has no duplicates, and the visited set consists of exactly
the enqueued URLs (newest first). -/
def EnqInv (st : CrawlState) : Prop :=
  st.enqLog.Nodup ∧ st.seen = st.enqLog.reverse

theorem linkStep_enqInv (sp : Spider) (pageUrl : String) (st : CrawlState)
    (href : String) (h : EnqInv st) : EnqInv (linkStep sp pageUrl st href) := by
  unfold linkStep
  split
  · exact h
  · next abs_url heq =>
    split
    · exact h
    · split
      · exact h
      · next hmem =>
        dsimp only
        split
        · exact h
        · split
          · exact h
          · obtain ⟨hnd, hse⟩ := h
            have habs : abs_url ∉ st.enqLog := by
              rw [hse] at hmem
              intro hc
              exact hmem (List.mem_reverse.mpr hc)
            constructor
            · rw [List.nodup_append]
              exact ⟨hnd, List.nodup_singleton _, by
                intro x hx hx1
                rw [List.mem_singleton] at hx1
                subst hx1
                exact habs hx⟩
            · show abs_url :: st.seen = (st.enqLog ++ [abs_url]).reverse
              rw [hse, List.reverse_append]
              rfl

theorem crawlStep_enqInv (sp : Spider) (w : World) (st : CrawlState)
    (h : EnqInv st) : EnqInv (crawlStep sp w st) := by
  unfold crawlStep
  split
  · exact h
  · split
    · exact h
    · split
      · exact h
      · exact processLinks_preserve sp _ (linkStep_enqInv sp _) _ _ h

theorem crawl_enqInv (sp : Spider) (w : World) (fuel : Nat) :
    EnqInv (crawl sp w fuel).1 := by
  apply crawlLoop_preserve sp w (fun st _ h => crawlStep_enqInv sp w st h)
  constructor
  · exact List.nodup_singleton _
  · rfl

/-! ### The root-depth invariant (claim C5) -/

theorem getUrlDepth_memo_hit (sp : Spider) (depths : List (String × Int))
    (url : String) (d : Int) (h : depthFind url depths = some d) :
    getUrlDepth sp depths url = (d, depths) := by
  unfold getUrlDepth
  rw [h]

theorem getUrlDepth_root_stable (sp : Spider) (depths : List (String × Int))
    (url : String) (h : depthFind sp.root depths = some 0) :
    depthFind sp.root (getUrlDepth sp depths url).2 = some 0 := by
  unfold getUrlDepth
  cases hd : depthFind url depths with
  | some d => exact h
  | none =>
    dsimp only
    split
    · exact h
    · next hne =>
      split
      · exact h
      · dsimp only
        unfold depthFind
        rw [if_neg (fun heq => hne heq.symm)]
        exact h

theorem getUrlDepth_idem (sp : Spider) (depths : List (String × Int))
    (url : String) :
    getUrlDepth sp (getUrlDepth sp depths url).2 url = getUrlDepth sp depths url := by
  cases hd : depthFind url depths with
  | some d =>
    rw [getUrlDepth_memo_hit sp depths url d hd]
    exact getUrlDepth_memo_hit sp depths url d hd
  | none =>
    by_cases hr : url = sp.root
    · have hinner : getUrlDepth sp depths url = (0, depths) := by
        unfold getUrlDepth
        rw [hd]
        simp [hr]
      rw [hinner]
      exact hinner
    · by_cases hnl : (urlparse sp.root).netloc ≠ (urlparse url).netloc
      · have hinner : getUrlDepth sp depths url = (-1, depths) := by
          unfold getUrlDepth
          rw [hd]
          simp [hr, hnl]
        rw [hinner]
        exact hinner
      · have hinner : getUrlDepth sp depths url =
            (max 0 (((splitChar '/' (rstripList '/' (urlparse url).path.toList)).length : Int) -
              ((splitChar '/' (rstripList '/' (urlparse sp.root).path.toList)).length : Int)),
             (url, max 0 (((splitChar '/' (rstripList '/' (urlparse url).path.toList)).length : Int) -
              ((splitChar '/' (rstripList '/' (urlparse sp.root).path.toList)).length : Int))) :: depths) := by
          unfold getUrlDepth
          rw [hd]
          simp [hr, hnl]
        rw [hinner]
        apply getUrlDepth_memo_hit
        unfold depthFind
        rw [if_pos rfl]

theorem linkStep_rootDepth (sp : Spider) (pageUrl : String) (st : CrawlState)
    (href : String) (h : depthFind sp.root st.urlDepths = some 0) :
    depthFind sp.root (linkStep sp pageUrl st href).urlDepths = some 0 := by
  unfold linkStep
  split
  · exact h
  · split
    · exact h
    · split
      · exact h
      · dsimp only
        split
        · exact getUrlDepth_root_stable sp st.urlDepths _ h
        · split
          · exact getUrlDepth_root_stable sp st.urlDepths _ h
          · exact getUrlDepth_root_stable sp st.urlDepths _ h

theorem crawlStep_rootDepth (sp : Spider) (w : World) (st : CrawlState)
    (h : depthFind sp.root st.urlDepths = some 0) :
    depthFind sp.root (crawlStep sp w st).urlDepths = some 0 := by
  unfold crawlStep
  split
  · exact h
  · split
    · exact h
    · split
      · exact h
      · exact processLinks_preserve sp _
          (fun st' href h' => linkStep_rootDepth sp _ st' href h') _ _ h

theorem crawl_rootDepth (sp : Spider) (w : World) (fuel : Nat) :
    depthFind sp.root (crawl sp w fuel).1.urlDepths = some 0 := by
  apply crawlLoop_preserve sp w (fun st _ h => crawlStep_rootDepth sp w st h)
  unfold initState depthFind
  rw [if_pos rfl]

/-! ### The page-cap invariant (claim C2) -/

theorem crawlCond_rows_lt (sp : Spider) (st : CrawlState)
    (h : crawlCond sp st = true) : st.rows.length < sp.maxPages := by
  unfold crawlCond at h
  simp only [Bool.and_eq_true, decide_eq_true_eq] at h
  exact h.1.2

theorem crawlLoop_rows_le (sp : Spider) (w : World) :
    ∀ (fuel : Nat) (st : CrawlState), st.rows.length ≤ sp.maxPages →
      (crawlLoop sp w fuel st).1.rows.length ≤ sp.maxPages := by
  intro fuel
  induction fuel with
  | zero =>
    intro st h
    unfold crawlLoop
    split <;> exact h
  | succ n ih =>
    intro st h
    unfold crawlLoop
    split
    · next hc =>
      apply ih
      have h1 := crawlCond_rows_lt sp st hc
      have h2 := crawlStep_rows_le sp w st
      omega
    · exact h

theorem crawl_rows_le (sp : Spider) (w : World) (fuel : Nat) :
    (crawl sp w fuel).1.rows.length ≤ sp.maxPages :=
  crawlLoop_rows_le sp w fuel (initState sp) (Nat.zero_le _)

/-! ### Gate ordering (claim C3) -/

/-- Specification-side helper: scan a list of (check passed?, reason)
pairs and report the reason of the first failing check, if any. -/
def firstFail : List (Bool × SkipReason) → Option SkipReason
  | [] => none
  | (ok, r) :: rest => if ok then firstFail rest else some r

/-- The gating pipeline in the order the source applies it:
depth, robots, domain, path/extension, keyword. -/
def sourceGateOrder (sp : Spider) (w : World) (url : String) (depth : Int) :
    Option SkipReason :=
  firstFail
    [(!decide (0 ≤ sp.maxDepth ∧ sp.maxDepth < depth), .depthExceeded),
     (canFetch sp w url, .robotsBlocked),
     (checkDomainAllowed sp url, .domainNotAllowed),
     (checkLinkFilter sp url, .linkFilterMismatch),
     (checkKeywordFilters sp url, .keywordMismatch)]

/-- The gating pipeline in the order claim C3 states it: depth, then the
scope filters (domain allow-list, path/extension, keyword), then
robots. -/
def claimGateOrder (sp : Spider) (w : World) (url : String) (depth : Int) :
    Option SkipReason :=
  firstFail
    [(!decide (0 ≤ sp.maxDepth ∧ sp.maxDepth < depth), .depthExceeded),
     (checkDomainAllowed sp url, .domainNotAllowed),
     (checkLinkFilter sp url, .linkFilterMismatch),
     (checkKeywordFilters sp url, .keywordMismatch),
     (canFetch sp w url, .robotsBlocked)]

theorem gateCheck_eq_sourceOrder (sp : Spider) (w : World) (url : String)
    (depth : Int) : gateCheck sp w url depth = sourceGateOrder sp w url depth := by
  unfold gateCheck sourceGateOrder
  by_cases h1 : 0 ≤ sp.maxDepth ∧ sp.maxDepth < depth <;>
    cases h2 : canFetch sp w url <;>
    cases h3 : checkDomainAllowed sp url <;>
    cases h4 : checkLinkFilter sp url <;>
    cases h5 : checkKeywordFilters sp url <;>
    simp [firstFail, h1, h2, h3, h4, h5]

/-- A failing gate makes the loop iteration pure bookkeeping: the entry
is dequeued, the reason is logged, and nothing else changes — in
particular no fetch happens (`fetchLog` unchanged) and no record is
emitted (`rows` unchanged). -/
theorem crawlStep_skip (sp : Spider) (w : World) (st : CrawlState)
    (url : String) (depth : Int) (rest : List (String × Int)) (r : SkipReason)
    (hq : st.queue = (url, depth) :: rest)
    (hg : gateCheck sp w url depth = some r) :
    crawlStep sp w st = { st with queue := rest, skipLog := st.skipLog ++ [r] } := by
  unfold crawlStep
  rw [hq]
  dsimp only
  rw [hg]

/-! ### Fetch retry lemmas (claim C4) -/

theorem fetchAux_attempts_le (backoff : ℚ) (ok : Nat → Bool) :
    ∀ (remaining attempt : Nat),
      (fetchAux backoff ok attempt remaining).2.1 ≤ remaining + 1 := by
  intro remaining
  induction remaining with
  | zero =>
    intro a
    unfold fetchAux
    split
    · simp
    · simp
  | succ r ih =>
    intro a
    unfold fetchAux
    split
    · simp
    · dsimp only
      have := ih (a + 1)
      omega

theorem fetchAux_all_fail (backoff : ℚ) (ok : Nat → Bool)
    (hok : ∀ i, ok i = false) :
    ∀ (remaining attempt : Nat),
      fetchAux backoff ok attempt remaining =
        (none, remaining + 1,
         (List.range remaining).map (fun i => backoff * 2 ^ (attempt + i))) := by
  intro remaining
  induction remaining with
  | zero =>
    intro a
    unfold fetchAux
    rw [hok a]
    simp
  | succ r ih =>
    intro a
    unfold fetchAux
    rw [hok a]
    dsimp only
    rw [ih (a + 1)]
    refine congrArg (fun l => ((none : Option Unit), r + 1 + 1, l)) ?_
    rw [List.range_succ_eq_map]
    simp only [List.map_cons, List.map_map, Nat.add_zero, Function.comp]
    refine congrArg (fun l => backoff * 2 ^ a :: l) ?_
    apply List.map_congr_left
    intro i _
    have h : a + 1 + i = a + (i + 1) := by omega
    rw [h]
    rfl

theorem fetchWithRetry_attempts_le (max_retries : Nat) (backoff : ℚ)
    (ok : Nat → Bool) :
    (fetchWithRetry max_retries backoff ok).2.1 ≤ max_retries + 1 :=
  fetchAux_attempts_le backoff ok max_retries 0

theorem fetchWithRetry_all_fail (max_retries : Nat) (backoff : ℚ)
    (ok : Nat → Bool) (hok : ∀ i, ok i = false) :
    fetchWithRetry max_retries backoff ok =
      (none, max_retries + 1,
       (List.range max_retries).map (fun i => backoff * 2 ^ i)) := by
  unfold fetchWithRetry
  rw [fetchAux_all_fail backoff ok hok max_retries 0]
  simp

/-! ### Scheme preservation under fragment stripping (claim C6) -/

theorem splitAtFirst_takeWhile (l : List Char) :
    ∀ (pre post : List Char), splitAtFirst ':' l = some (pre, post) →
      '#' ∉ pre →
      splitAtFirst ':' (l.takeWhile (· != '#')) =
        some (pre, post.takeWhile (· != '#')) := by
  induction l with
  | nil => intro pre post h _; simp [splitAtFirst] at h
  | cons x xs ih =>
    intro pre post h hpre
    rw [splitAtFirst] at h
    by_cases hx : (x == ':') = true
    · rw [if_pos hx] at h
      simp only [Option.some.injEq, Prod.mk.injEq] at h
      obtain ⟨hp, hq⟩ := h
      subst hp
      subst hq
      have hx' : x = ':' := by simpa using hx
      subst hx'
      simp [List.takeWhile_cons, splitAtFirst]
    · rw [if_neg hx] at h
      cases hs : splitAtFirst ':' xs with
      | none => rw [hs] at h; exact absurd h (by simp)
      | some ab =>
        obtain ⟨a, b⟩ := ab
        rw [hs] at h
        simp only [Option.some.injEq, Prod.mk.injEq] at h
        obtain ⟨hp, hq⟩ := h
        subst hp
        subst hq
        have hxh : (x != '#') = true := by
          simp only [bne_iff_ne, ne_eq]
          intro hcontra
          exact hpre (hcontra ▸ List.mem_cons_self x a)
        rw [List.takeWhile_cons, if_pos (by simpa using hxh)]
        rw [splitAtFirst, if_neg hx]
        rw [ih a b hs (fun hm => hpre (List.mem_cons_of_mem x hm))]

theorem validScheme_no_hash (pre : List Char) (h : validScheme pre = true) :
    '#' ∉ pre := by
  cases pre with
  | nil => simp
  | cons c cs =>
    rw [validScheme, Bool.and_eq_true] at h
    intro hmem
    rcases List.mem_cons.mp hmem with h1 | h1
    · rw [← h1] at h
      exact absurd h.1 (by decide)
    · have := List.all_eq_true.mp h.2 '#' h1
      exact absurd this (by decide)

theorem extractScheme_takeWhile (l : List Char)
    (hne : (extractScheme l).1 ≠ []) :
    (extractScheme (l.takeWhile (· != '#'))).1 = (extractScheme l).1 := by
  unfold extractScheme at hne ⊢
  cases hs : splitAtFirst ':' l with
  | none =>
    rw [hs] at hne
    exact absurd rfl hne
  | some pb =>
    obtain ⟨pre, post⟩ := pb
    by_cases hv : validScheme pre = true
    · rw [splitAtFirst_takeWhile l pre post hs (validScheme_no_hash pre hv)]
      dsimp only
      rw [if_pos hv, if_pos hv]
    · rw [hs] at hne
      dsimp only at hne
      rw [if_neg hv] at hne
      exact absurd rfl hne

theorem urlparse_scheme_extract (s : String) :
    (urlparse s).scheme = String.mk (extractScheme s.toList).1 := rfl

theorem pySplitHead_scheme (s : String) (h : (urlparse s).scheme ≠ "") :
    (urlparse (pySplitHead '#' s)).scheme = (urlparse s).scheme := by
  have h1 : (extractScheme s.toList).1 ≠ [] := by
    intro hc
    apply h
    rw [urlparse_scheme_extract, hc]
  rw [urlparse_scheme_extract, urlparse_scheme_extract]
  have h2 : (pySplitHead '#' s).toList = s.toList.takeWhile (· != '#') := rfl
  rw [h2, extractScheme_takeWhile s.toList h1]

theorem pySplitHead_no_hash (s : String) :
    ∀ c ∈ (pySplitHead '#' s).toList, c ≠ '#' := by
  intro c hc
  have h2 : (pySplitHead '#' s).toList = s.toList.takeWhile (· != '#') := rfl
  rw [h2] at hc
  have := List.mem_takeWhile_imp hc
  simpa using this

/-! ### Category extraction (claim C9) -/

/-- The category in the words of the specification: the first non-empty
path segment (segments being the chunks of the path split on `/`), or
the empty string when there is none. -/
def firstNonemptySegment (path : String) : String :=
  String.mk (((splitChar '/' path.toList).filter (· ≠ [])).headD [])

theorem splitChar_ne_nil (c : Char) (l : List Char) : splitChar c l ≠ [] := by
  induction l with
  | nil => simp [splitChar]
  | cons x xs ih =>
    rw [splitChar]
    cases hs : splitChar c xs with
    | nil => simp
    | cons g gs =>
      dsimp only
      split <;> simp

theorem splitChar_head (c : Char) (l : List Char) :
    (splitChar c l).headD [] = l.takeWhile (· != c) := by
  induction l with
  | nil => rfl
  | cons x xs ih =>
    rw [splitChar]
    cases hs : splitChar c xs with
    | nil => exact absurd hs (splitChar_ne_nil c xs)
    | cons g gs =>
      rw [hs] at ih
      rw [List.takeWhile_cons]
      dsimp only
      by_cases hx : (x == c) = true
      · rw [if_pos hx]
        have hb : (x != c) = false := by simpa [bne] using hx
        rw [hb]
        rfl
      · rw [if_neg hx]
        have hb : (x != c) = true := by simpa [bne] using hx
        rw [hb]
        dsimp only [List.headD_cons] at ih ⊢
        rw [ih]
        rfl

theorem splitChar_filter_head (c : Char) (l : List Char) :
    ((splitChar c l).filter (· ≠ [])).headD [] =
      (l.dropWhile (· == c)).takeWhile (· != c) := by
  induction l with
  | nil => rfl
  | cons x xs ih =>
    rw [splitChar]
    cases hs : splitChar c xs with
    | nil => exact absurd hs (splitChar_ne_nil c xs)
    | cons g gs =>
      rw [List.dropWhile_cons]
      dsimp only
      by_cases hx : (x == c) = true
      · rw [if_pos hx, if_pos hx]
        rw [hs] at ih
        simpa using ih
      · rw [if_neg hx, if_neg hx]
        have hone : ((x :: g) :: gs).filter (· ≠ []) = (x :: g) :: (g :: gs).tail.filter (· ≠ []) := by
          simp [List.filter_cons]
        rw [hone]
        dsimp only [List.headD_cons, List.tail_cons]
        rw [List.takeWhile_cons]
        have hb : (x != c) = true := by simpa [bne] using hx
        rw [hb]
        have hg : g = xs.takeWhile (· != c) := by
          have := splitChar_head c xs
          rw [hs] at this
          simpa using this
        rw [hg]
        rfl

theorem rstripList_nil_takeWhile (c : Char) (xs : List Char)
    (h : rstripList c xs = []) : xs.takeWhile (· != c) = [] := by
  cases xs with
  | nil => rfl
  | cons x rest =>
    rw [rstripList] at h
    cases hr : rstripList c rest with
    | nil =>
      rw [hr] at h
      by_cases hx : (x == c) = true
      · rw [List.takeWhile_cons]
        have hb : (x != c) = false := by simpa [bne] using hx
        rw [hb]
        rfl
      · rw [if_neg hx] at h
        simp at h
    | cons y ys => rw [hr] at h; simp at h

theorem takeWhile_rstripList (c : Char) (m : List Char) :
    (rstripList c m).takeWhile (· != c) = m.takeWhile (· != c) := by
  induction m with
  | nil => rfl
  | cons x xs ih =>
    rw [rstripList]
    cases hr : rstripList c xs with
    | nil =>
      by_cases hx : (x == c) = true
      · rw [if_pos hx]
        rw [List.takeWhile_cons]
        have hb : (x != c) = false := by simpa [bne] using hx
        rw [hb]
        rfl
      · rw [if_neg hx]
        rw [List.takeWhile_cons, List.takeWhile_cons]
        have hb : (x != c) = true := by simpa [bne] using hx
        rw [hb]
        rw [rstripList_nil_takeWhile c xs hr]
        rfl
    | cons y ys =>
      rw [hr] at ih
      by_cases hx : (x == c) = true
      · have hb : (x != c) = false := by simpa [bne] using hx
        simp [List.takeWhile_cons, hb]
      · have hb : (x != c) = true := by simpa [bne] using hx
        simp only [List.takeWhile_cons, hb] at ih ⊢
        simpa using ih

theorem category_chars (l : List Char) :
    (if stripCharList '/' l ≠ [] then
        (splitChar '/' (stripCharList '/' l)).headD []
      else []) =
      ((splitChar '/' l).filter (· ≠ [])).headD [] := by
  rw [splitChar_filter_head]
  by_cases hp : stripCharList '/' l = []
  · rw [if_neg (by simpa using hp)]
    unfold stripCharList at hp
    exact (rstripList_nil_takeWhile '/' (l.dropWhile (· == '/')) hp).symm
  · rw [if_pos hp]
    rw [splitChar_head]
    unfold stripCharList
    rw [takeWhile_rstripList]

theorem computeCategory_eq (url : String) :
    computeCategory url = firstNonemptySegment (urlparse url).path := by
  unfold computeCategory firstNonemptySegment
  dsimp only
  rw [← category_chars (urlparse url).path.toList]
  by_cases hp : stripCharList '/' (urlparse url).path.toList ≠ []
  · rw [if_pos hp, if_pos hp]
  · rw [if_neg hp, if_neg hp]

/-! ### Root membership in the visited set -/

theorem linkStep_root_seen (sp : Spider) (pageUrl : String) (st : CrawlState)
    (href : String) (h : sp.root ∈ st.seen) :
    sp.root ∈ (linkStep sp pageUrl st href).seen := by
  unfold linkStep
  split
  · exact h
  · split
    · exact h
    · split
      · exact h
      · dsimp only
        split
        · exact h
        · split
          · exact h
          · exact List.mem_cons_of_mem _ h

theorem crawlStep_root_seen (sp : Spider) (w : World) (st : CrawlState)
    (h : sp.root ∈ st.seen) : sp.root ∈ (crawlStep sp w st).seen := by
  unfold crawlStep
  split
  · exact h
  · split
    · exact h
    · split
      · exact h
      · exact processLinks_preserve sp _
          (fun st' href h' => linkStep_root_seen sp _ st' href h') _ _ h

theorem crawl_root_seen (sp : Spider) (w : World) (fuel : Nat) :
    sp.root ∈ (crawl sp w fuel).1.seen := by
  apply crawlLoop_preserve sp w (fun st _ h => crawlStep_root_seen sp w st h)
  exact List.mem_singleton_self _

/-! ### Concrete configurations used by the claim theorems -/

/-- A pageCap-5 spider over a site whose every page links to two fresh
same-origin pages (the "infinitely linking site" of claim C2). -/
def spGrow : Spider := Spider.init "https://x.test" 5 (-1) [] [] [] [] true

def wGrow : World :=
  { fetch := fun u => some ⟨some "T", [u ++ "/a", u ++ "/b"]⟩
    robotsAllow := fun _ => true }

/-- A spider whose root is simultaneously outside the domain allow-list
and blocked by robots.txt, separating the two possible gate orders. -/
def spC3 : Spider :=
  Spider.init "https://x.test" 150 (-1) ["allowed.example"] [] [] [] true

def wC3 : World := { fetch := fun _ => none, robotsAllow := fun _ => false }

/-- The keyword-filter configuration of claim C8:
include=["blog"], exclude=["draft"]. -/
def spKw : Spider :=
  Spider.init "https://site" 150 (-1) [] [] ["blog"] ["draft"] true

/-- An unrestricted spider over `https://x.test`. -/
def spPlain : Spider := Spider.init "https://x.test" 150 (-1) [] [] [] [] true

/-- A one-page site whose only page has a whitespace-only title. -/
def wWs : World :=
  { fetch := fun u =>
      if u = "https://x.test" then some ⟨some "   ", []⟩ else none
    robotsAllow := fun _ => true }

/-- A world in which every fetch fails (after its internal retries). -/
def wFail : World := { fetch := fun _ => none, robotsAllow := fun _ => true }

/-- A spider constructed from a root URL carrying a trailing slash. -/
def spSlash : Spider := Spider.init "https://x.test/" 150 (-1) [] [] [] [] true

/-- A site that only answers at the slash-stripped root URL. -/
def wSlash : World :=
  { fetch := fun u =>
      if u = "https://x.test" then some ⟨some "T", []⟩ else none
    robotsAllow := fun _ => true }

/-! ### The claims -/

/-- C1: during a crawl run every URL is enqueued into the frontier at
most once (the chronological enqueue log, seed included, has no
duplicates); a URL is added to the visited set exactly when it is
enqueued (the visited set equals the enqueue log as a set — here stated
exactly: it is its reverse), and the root is in the visited set from the
seeding on. -/
theorem C1_enqueued_at_most_once (sp : Spider) (w : World) (fuel : Nat) :
    (crawl sp w fuel).1.enqLog.Nodup ∧
      (crawl sp w fuel).1.seen = (crawl sp w fuel).1.enqLog.reverse ∧
      sp.root ∈ (crawl sp w fuel).1.seen := by
  have h := crawl_enqInv sp w fuel
  exact ⟨h.1, h.2, crawl_root_seen sp w fuel⟩

/-- C2: the number of emitted records never exceeds the page cap — for
every configuration, world and fuel (i.e. at every point of every run)
`rows.length ≤ maxPages`; and on a page cap of 5 over a site whose every
page links to fresh in-scope pages, the run emits exactly 5 records and
terminates normally (`done`, not fuel exhaustion). -/
theorem C2_page_cap :
    (∀ (sp : Spider) (w : World) (fuel : Nat),
        (crawl sp w fuel).1.rows.length ≤ sp.maxPages) ∧
      (crawl spGrow wGrow 10).1.rows.length = 5 ∧
      (crawl spGrow wGrow 10).2 = CrawlOutcome.done := by
  refine ⟨crawl_rows_le, ?_, ?_⟩ <;> decide

/-- C3 counterexample: the claimed order (depth, then domain/path/keyword
filters, then robots) disagrees with the code on a URL that fails both
the robots check and the domain allow-list: the code skips it with the
robots reason (robots is checked before the scope filters), while the
claimed order would report the domain reason; a concrete crawl logs
`robotsBlocked`. -/
theorem C3_gate_order_counterexample :
    gateCheck spC3 wC3 "https://x.test" 0 = some SkipReason.robotsBlocked ∧
      claimGateOrder spC3 wC3 "https://x.test" 0 =
        some SkipReason.domainNotAllowed ∧
      (crawl spC3 wC3 3).1.skipLog = [SkipReason.robotsBlocked] := by
  refine ⟨?_, ?_, ?_⟩ <;> decide

/-- C3 amended: the gating checks run in the source order depth check →
robots check → domain allow-list → path/extension filter → keyword
filter; the first failing check makes the iteration log its reason,
dequeue the entry and change nothing else — no fetch (`fetchLog`
untouched) and no record. -/
theorem C3_gate_order_amended :
    (∀ (sp : Spider) (w : World) (url : String) (depth : Int),
        gateCheck sp w url depth = sourceGateOrder sp w url depth) ∧
      (∀ (sp : Spider) (w : World) (st : CrawlState) (url : String)
          (depth : Int) (rest : List (String × Int)) (r : SkipReason),
          st.queue = (url, depth) :: rest →
          gateCheck sp w url depth = some r →
          crawlStep sp w st =
            { st with queue := rest, skipLog := st.skipLog ++ [r] }) :=
  ⟨gateCheck_eq_sourceOrder, crawlStep_skip⟩

theorem C3_gate_order_amended_witness :
    crawlStep spC3 wC3 (initState spC3) =
      { initState spC3 with
          queue := [], skipLog := [SkipReason.robotsBlocked] } :=
  C3_gate_order_amended.2 spC3 wC3 (initState spC3) "https://x.test" 0 []
    SkipReason.robotsBlocked (by decide) (by decide)

/-- C4: the retry loop makes at most `maxRetries + 1` attempts; when
every attempt fails it makes exactly `maxRetries + 1` attempts, sleeps
`retryBackoff * 2 ^ attemptIndex` seconds after each failed attempt
except the last, and returns failure; with `maxRetries = 2`,
`retryBackoff = 1.0` that is 3 attempts with sleeps of 1s and 2s; and at
the crawl level a fetch failure merely logs a skip — the run still
reaches `done` with no record and no crash. -/
theorem C4_fetch_retry :
    (∀ (m : Nat) (b : ℚ) (ok : Nat → Bool),
        (fetchWithRetry m b ok).2.1 ≤ m + 1) ∧
      (∀ (m : Nat) (b : ℚ) (ok : Nat → Bool), (∀ i, ok i = false) →
        fetchWithRetry m b ok =
          (none, m + 1, (List.range m).map (fun i => b * 2 ^ i))) ∧
      fetchWithRetry 2 1 (fun _ => false) = (none, 3, [1, 2]) ∧
      (crawl spPlain wFail 3).1.rows = [] ∧
      (crawl spPlain wFail 3).1.skipLog = [SkipReason.fetchFailed] ∧
      (crawl spPlain wFail 3).2 = CrawlOutcome.done := by
  refine ⟨fetchWithRetry_attempts_le, fetchWithRetry_all_fail, ?_, ?_, ?_, ?_⟩
  · rw [fetchWithRetry_all_fail 2 1 (fun _ => false) (fun _ => rfl)]
    norm_num [List.range_succ]
  · decide
  · decide
  · decide

theorem C4_fetch_retry_witness :
    fetchWithRetry 2 1 (fun _ => false) =
      (none, 2 + 1, (List.range 2).map (fun i => (1 : ℚ) * 2 ^ i)) :=
  C4_fetch_retry.2.1 2 1 (fun _ => false) (fun _ => rfl)

/-- C5: the depth recorded for the root is 0 at every point of every
run; a memoized depth is returned unchanged without recomputation or
state change; and the depth computation is idempotent — querying again
right after any query returns the same value and leaves the memo
unchanged (first computed value wins). -/
theorem C5_depth_memoization :
    (∀ (sp : Spider) (w : World) (fuel : Nat),
        depthFind sp.root (crawl sp w fuel).1.urlDepths = some 0) ∧
      (∀ (sp : Spider) (depths : List (String × Int)) (url : String) (d : Int),
        depthFind url depths = some d → getUrlDepth sp depths url = (d, depths)) ∧
      (∀ (sp : Spider) (depths : List (String × Int)) (url : String),
        getUrlDepth sp (getUrlDepth sp depths url).2 url =
          getUrlDepth sp depths url) :=
  ⟨crawl_rootDepth, getUrlDepth_memo_hit, getUrlDepth_idem⟩

theorem C5_depth_memoization_witness :
    getUrlDepth spPlain [("https://x.test/a", 7)] "https://x.test/a" =
      (7, [("https://x.test/a", 7)]) :=
  C5_depth_memoization.2.1 spPlain [("https://x.test/a", 7)]
    "https://x.test/a" 7 (by decide)

/-- C6: whenever the URL normalizer returns a URL, that URL's scheme is
in {http, https} and the URL contains no `#` (hence no fragment). -/
theorem C6_normalize_scheme_fragment (base href u : String)
    (h : normalize_link base href = some u) :
    ALLOWED_SCHEMES.contains (urlparse u).scheme = true ∧
      ∀ c ∈ u.toList, c ≠ '#' := by
  unfold normalize_link at h
  split at h
  · exact absurd h (by simp)
  · dsimp only at h
    split at h
    · exact absurd h (by simp)
    · next hcon =>
      rw [Option.some.injEq] at h
      subst h
      have hcon' : ALLOWED_SCHEMES.contains
          (urlparse (urljoin base (pyStrip href))).scheme = true :=
        not_not.mp hcon
      constructor
      · have hne : (urlparse (urljoin base (pyStrip href))).scheme ≠ "" := by
          intro hempty
          rw [hempty] at hcon'
          exact absurd hcon' (by decide)
        rw [pySplitHead_scheme _ hne]
        exact hcon'
      · exact pySplitHead_no_hash _

theorem C6_normalize_scheme_fragment_witness :
    ALLOWED_SCHEMES.contains (urlparse "https://x.test/b").scheme = true ∧
      ∀ c ∈ ("https://x.test/b" : String).toList, c ≠ '#' :=
  C6_normalize_scheme_fragment "https://x.test/a" "b#frag" "https://x.test/b"
    (by decide)

/-- C7: the empty href is indeed rejected, but a pure-fragment href is
NOT rejected: the anchor check in the source is a no-op (both branches
are `pass`), so `#top` against `https://site/page` resolves to the base
and is returned (fragment-stripped) instead of `None`. -/
theorem C7_pure_fragment_not_rejected :
    (∀ base : String, normalize_link base "" = none) ∧
      normalize_link "https://site/page" "#top" = some "https://site/page" := by
  exact ⟨fun base => rfl, by decide⟩

/-- C8: the keyword filter accepts a URL exactly when no exclude keyword
is a case-insensitive substring of it and (if include keywords are
configured) some include keyword is — so an exclude hit rejects even
when an include keyword also matches, and an empty include list lets
everything through; with include=["blog"], exclude=["draft"] the three
example URLs behave as claimed. -/
theorem C8_keyword_filter :
    (∀ (sp : Spider) (url : String),
        checkKeywordFilters sp url = true ↔
          ((∀ kw ∈ sp.excludeKeywords,
              strContains (pyLower url) (pyLower kw) = false) ∧
            (sp.includeKeywords = [] ∨
              ∃ kw ∈ sp.includeKeywords,
                strContains (pyLower url) (pyLower kw) = true))) ∧
      checkKeywordFilters spKw "https://site/blog/draft-1" = false ∧
      checkKeywordFilters spKw "https://site/blog/post-1" = true ∧
      checkKeywordFilters spKw "https://site/about" = false := by
  refine ⟨?_, by decide, by decide, by decide⟩
  intro sp url
  unfold checkKeywordFilters
  by_cases hex :
      sp.excludeKeywords.any (fun kw => strContains (pyLower url) (pyLower kw)) = true
  · rw [if_pos hex]
    constructor
    · intro hcontra
      exact absurd hcontra (by simp)
    · rintro ⟨hexc, -⟩
      rw [List.any_eq_true] at hex
      obtain ⟨kw, hmem, hkw⟩ := hex
      have := hexc kw hmem
      rw [this] at hkw
      exact absurd hkw (by simp)
  · rw [if_neg hex]
    have hexc : ∀ kw ∈ sp.excludeKeywords,
        strContains (pyLower url) (pyLower kw) = false := by
      intro kw hmem
      by_contra hc
      apply hex
      rw [List.any_eq_true]
      exact ⟨kw, hmem, by simpa using hc⟩
    by_cases hinc : sp.includeKeywords = []
    · rw [if_neg (by simp [hinc])]
      simp [hinc]
      exact hexc
    · rw [if_pos hinc]
      rw [List.any_eq_true]
      constructor
      · rintro ⟨kw, hm, hk⟩
        exact ⟨hexc, Or.inr ⟨kw, hm, hk⟩⟩
      · rintro ⟨-, h1 | h2⟩
        · exact absurd h1 hinc
        · exact h2

/-- C9 counterexample: a fetched page whose title is whitespace-only
produces a record whose title is the empty string, not the page URL —
the fallback only triggers when the raw title string is absent or empty
before trimming. -/
theorem C9_whitespace_title_counterexample :
    (crawl spPlain wWs 3).1.rows =
        [{ title := "", category := "", url := "https://x.test" }] ∧
      ("" : String) ≠ "https://x.test" := by
  exact ⟨by decide, by decide⟩

/-- C9 amended: the record title is the URL when the raw title string is
absent or empty (before trimming), and otherwise the trimmed raw title
(so a whitespace-only title gives the empty string); the category is the
first non-empty path segment of the URL's path, or the empty string when
there is none. -/
theorem C9_title_category_amended :
    (∀ url : String, computeTitle none url = url) ∧
      (∀ url : String, computeTitle (some "") url = url) ∧
      (∀ (s url : String), s ≠ "" → computeTitle (some s) url = pyStrip s) ∧
      (∀ url : String,
        computeCategory url = firstNonemptySegment (urlparse url).path) := by
  refine ⟨fun url => rfl, fun url => rfl, ?_, computeCategory_eq⟩
  intro s url hs
  unfold computeTitle
  dsimp only
  rw [if_pos hs]

theorem C9_title_category_amended_witness :
    computeTitle (some "  T  ") "https://x.test" = pyStrip "  T  " :=
  C9_title_category_amended.2.2.1 "  T  " "https://x.test" (by decide)

/-- C10: the Spider constructor strips all trailing slashes from the
root URL; the seed frontier entry, the seeded visited set and the seeded
depth memo all use the stripped form, and a crawl started from
`https://x.test/` records the root page under `https://x.test`. -/
theorem C10_root_trailing_slash :
    (∀ (ru : String) (mp : Nat) (md : Int)
        (ad lf ik ek : List String) (rr : Bool),
        (Spider.init ru mp md ad lf ik ek rr).root = pyRstripChar '/' ru) ∧
      spSlash.root = "https://x.test" ∧
      (initState spSlash).queue = [("https://x.test", 0)] ∧
      (initState spSlash).seen = ["https://x.test"] ∧
      (initState spSlash).urlDepths = [("https://x.test", 0)] ∧
      (crawl spSlash wSlash 3).1.rows =
        [{ title := "T", category := "", url := "https://x.test" }] := by
  refine ⟨fun ru mp md ad lf ik ek rr => rfl, ?_, ?_, ?_, ?_, ?_⟩ <;> decide

end SpiderScraper
